import Mathlib

/-!
Verification of the client-side catalog access layer and import lifecycle
pipeline (action search, paginated fetch, cache, validation, batch import,
execution polling).  Python strings are modelled as `List Char`; the helpers
below embed the Python primitives used by the scripts: substring membership
(`x in s`), `str.lower()` (ASCII), `str.split()` (whitespace tokenisation),
`str.startswith`, and `max(_, key=len)`.
-/

set_option autoImplicit false

abbrev Str := List Char

/-- Python `hay.startswith(needle)` at the head of a character list. -/
def leadEq : Str → Str → Bool
  | [], _ => true
  | _ :: _, [] => false
  | a :: as, b :: bs => a == b && leadEq as bs

/-- Python `needle in hay`: contiguous substring membership. -/
def hasSub : Str → Str → Bool
  | n, [] => leadEq n []
  | n, c :: t => leadEq n (c :: t) || hasSub n t

/-- Python `s.lower()` restricted to ASCII, which is all the scripts use. -/
def lowerL (s : Str) : Str := s.map Char.toLower

theorem leadEq_iff (n : Str) : ∀ h : Str, leadEq n h = true ↔ ∃ t, h = n ++ t := by
  induction n with
  | nil => intro h; simp [leadEq]
  | cons a as ih =>
    intro h
    cases h with
    | nil => simp [leadEq]
    | cons b bs =>
      simp only [leadEq, Bool.and_eq_true, beq_iff_eq, ih bs, List.cons_append,
        List.cons.injEq]
      constructor
      · rintro ⟨rfl, t, rfl⟩; exact ⟨t, rfl, rfl⟩
      · rintro ⟨t, rfl, rfl⟩; exact ⟨rfl, t, rfl⟩

theorem hasSub_iff (n : Str) : ∀ h : Str, hasSub n h = true ↔ ∃ p t, h = p ++ n ++ t := by
  intro h
  induction h with
  | nil =>
    simp only [hasSub, leadEq_iff]
    constructor
    · rintro ⟨t, ht⟩
      rcases List.append_eq_nil.mp ht.symm with ⟨rfl, rfl⟩
      exact ⟨[], [], rfl⟩
    · rintro ⟨p, t, ht⟩
      rcases List.append_eq_nil.mp ht.symm with ⟨h1, rfl⟩
      rcases List.append_eq_nil.mp h1 with ⟨rfl, rfl⟩
      exact ⟨[], rfl⟩
  | cons c t ih =>
    simp only [hasSub, Bool.or_eq_true, leadEq_iff, ih]
    constructor
    · rintro (⟨u, hu⟩ | ⟨p, u, hu⟩)
      · exact ⟨[], u, by simp [hu]⟩
      · exact ⟨c :: p, u, by simp [hu]⟩
    · rintro ⟨p, u, hu⟩
      cases p with
      | nil => exact Or.inl ⟨u, by simpa using hu⟩
      | cons x xs =>
        simp only [List.cons_append, List.cons.injEq] at hu
        exact Or.inr ⟨xs, u, by simp [hu.2]⟩

theorem hasSub_nil (h : Str) : hasSub [] h = true := by
  rw [hasSub_iff]; exact ⟨[], h, rfl⟩

theorem leadEq_append (n a b : Str) (h : leadEq n a = true) : leadEq n (a ++ b) = true := by
  rw [leadEq_iff] at h ⊢
  rcases h with ⟨t, rfl⟩
  exact ⟨t ++ b, by simp⟩

theorem hasSub_map (f : Char → Char) (n h : Str) (hs : hasSub n h = true) :
    hasSub (n.map f) (h.map f) = true := by
  rw [hasSub_iff] at hs ⊢
  rcases hs with ⟨p, t, rfl⟩
  exact ⟨p.map f, t.map f, by simp⟩

theorem hasSub_trans (a b c : Str) (h1 : hasSub a b = true) (h2 : hasSub b c = true) :
    hasSub a c = true := by
  rw [hasSub_iff] at h1 h2 ⊢
  rcases h1 with ⟨p, t, rfl⟩
  rcases h2 with ⟨p', t', rfl⟩
  exact ⟨p' ++ p, t ++ t', by simp⟩

/-- Whitespace tokeniser worker: builds the current token in `cur` (reversed). -/
def splitWsGo : Str → Str → List Str
  | [], cur => if cur.isEmpty then [] else [cur.reverse]
  | c :: rest, cur =>
    if c.isWhitespace then
      if cur.isEmpty then splitWsGo rest [] else cur.reverse :: splitWsGo rest []
    else splitWsGo rest (c :: cur)

/-- Python `s.split()`: split on whitespace runs, dropping empty tokens. -/
def splitWsL (s : Str) : List Str := splitWsGo s []

theorem splitWsGo_sub : ∀ (s cur w : Str), w ∈ splitWsGo s cur →
    ∃ p t, cur.reverse ++ s = p ++ w ++ t := by
  intro s
  induction s with
  | nil =>
    intro cur w hw
    cases cur with
    | nil => simp [splitWsGo] at hw
    | cons a as =>
      have hw' : w = (a :: as).reverse := by simpa [splitWsGo] using hw
      exact ⟨[], [], by simp [hw']⟩
  | cons c rest ih =>
    intro cur w hw
    by_cases hws : c.isWhitespace
    · have step : ∀ w', w' ∈ splitWsGo rest [] → ∃ p t, cur.reverse ++ c :: rest = p ++ w' ++ t := by
        intro w' hw'
        obtain ⟨p, t, hp⟩ := ih [] w' hw'
        simp only [List.reverse_nil, List.nil_append] at hp
        exact ⟨cur.reverse ++ c :: p, t, by simp [hp]⟩
      cases cur with
      | nil =>
        have hw' : w ∈ splitWsGo rest [] := by simpa [splitWsGo, hws] using hw
        exact step w hw'
      | cons a as =>
        have hw' : w = (a :: as).reverse ∨ w ∈ splitWsGo rest [] := by
          simpa [splitWsGo, hws] using hw
        cases hw' with
        | inl h => exact ⟨[], c :: rest, by simp [h]⟩
        | inr h => exact step w h
    · have hw' : w ∈ splitWsGo rest (c :: cur) := by simpa [splitWsGo, hws] using hw
      obtain ⟨p, t, hp⟩ := ih (c :: cur) w hw'
      simp only [List.reverse_cons] at hp
      refine ⟨p, t, ?_⟩
      rw [show cur.reverse ++ c :: rest = cur.reverse ++ [c] ++ rest by simp]
      exact hp

theorem splitWsL_sub (s w : Str) (hw : w ∈ splitWsL s) : hasSub w s = true := by
  rcases splitWsGo_sub s [] w hw with ⟨p, t, hp⟩
  rw [hasSub_iff]
  exact ⟨p, t, by simpa using hp⟩

/-- Python `max(words, key=len)`: first element of maximal length
(later elements replace the running best only when strictly longer). -/
def maxByLen : List Str → Str
  | [] => []
  | w :: ws => ws.foldl (fun best x => if best.length < x.length then x else best) w

theorem foldl_pick_mem (ws : List Str) : ∀ b : Str,
    ws.foldl (fun best x => if best.length < x.length then x else best) b = b ∨
    ws.foldl (fun best x => if best.length < x.length then x else best) b ∈ ws := by
  induction ws with
  | nil => intro b; exact Or.inl rfl
  | cons x xs ih =>
    intro b
    simp only [List.foldl_cons]
    rcases ih (if b.length < x.length then x else b) with h | h
    · rw [h]
      by_cases hb : b.length < x.length
      · simp [hb]
      · simp [hb]
    · exact Or.inr (List.mem_cons_of_mem _ h)

theorem maxByLen_mem (ws : List Str) (h : ws ≠ []) : maxByLen ws ∈ ws := by
  cases ws with
  | nil => exact absurd rfl h
  | cons w rest =>
    simp only [maxByLen]
    rcases foldl_pick_mem rest w with h' | h'
    · rw [h']; exact List.mem_cons_self _ _
    · exact List.mem_cons_of_mem _ h'

/-!
Search resolver (`action_search.py`).  A catalog entry carries the two fields
the search paths read: `name` and `vendor` (`r.get("name", "")`,
`r.get("vendor", "")`).  The remote FQL capability (`_fql_search`, which wraps
the Combined Activities endpoint plus its own pagination) is external to the
core, so it is modelled as an oracle returning `none` on error (the source
returns `None` when the request raises) and otherwise a result list.
-/

structure Entry where
  name : Str
  vendor : Str
deriving DecidableEq, Repr

/-- Vendor clause shared by the client-side scan and the FQL model:
`if vendor_filter and r.get("vendor", "").lower() != vendor_filter.lower()`
(an empty vendor string is falsy in Python and disables the clause). -/
def vendorPass (vendorF : Option Str) (r : Entry) : Bool :=
  match vendorF with
  | none => true
  | some v => if v.isEmpty then true else lowerL r.vendor == lowerL v

/-- `_client_side_search`: scan the catalog for case-insensitive name-substring
matches, after the optional vendor filter. -/
def csPred (query : Str) (vendorF : Option Str) (r : Entry) : Bool :=
  vendorPass vendorF r && hasSub (lowerL query) (lowerL r.name)

def client_side_search (query : Str) (vendorF : Option Str) (catalog : List Entry) :
    List Entry :=
  catalog.filter (csPred query vendorF)

/-- Modelled from the spec: the remote FQL filter semantics, which the source
only consumes (`name:'keyword'` is a substring match on the action name,
`vendor:'VendorName'` an exact vendor match, clauses ANDed with `+`; matching
is case-insensitive like the client-side fallback, per the spec requirement
that the tiers agree).  `_fql_search` builds the name clause only when `query`
is truthy, hence the `Option`/emptiness tests. -/
def fqlNamePass (query : Option Str) (r : Entry) : Bool :=
  match query with
  | none => true
  | some q => if q.isEmpty then true else hasSub (lowerL q) (lowerL r.name)

def fqlFilter (query vendorF : Option Str) (catalog : List Entry) : List Entry :=
  catalog.filter (fun r => vendorPass vendorF r && fqlNamePass query r)

/-- The `_fql_search(query, vendor_filter)` call boundary: `none` models the
`None` returned when the remote errors; a sound oracle otherwise returns either
a degraded empty set (the remote returns zero rows for multi-word substrings)
or the true FQL filter result over the catalog. -/
def FqlOracle : Type := Option Str → Option Str → Option (List Entry)

def fqlSound (catalog : List Entry) (oracle : FqlOracle) : Prop :=
  ∀ q v res, oracle q v = some res → res = [] ∨ res = fqlFilter q v catalog

/-- Which tier of `search_actions` produced the returned list. -/
inductive Tier where
  | direct
  | narrowed
  | fullScan
deriving DecidableEq, Repr

/-- Tiers 2 and 3 of `search_actions`: the multi-word narrowing on the longest
token, else the full catalog scan. -/
def search_fallback (oracle : FqlOracle) (catalog : List Entry) (query : Str)
    (vendorF : Option Str) : List Entry × Tier :=
  let words := splitWsL query
  if 1 < words.length then
    let longest := maxByLen words
    match oracle (some longest) vendorF with
    | some fqlResults =>
      if 0 < fqlResults.length then
        (fqlResults.filter (fun r => hasSub (lowerL query) (lowerL r.name)), Tier.narrowed)
      else (client_side_search query vendorF catalog, Tier.fullScan)
    | none => (client_side_search query vendorF catalog, Tier.fullScan)
  else (client_side_search query vendorF catalog, Tier.fullScan)

/-- `search_actions(query, vendor_filter)`: direct remote filter, then the
fallback tiers.  The pair records which tier answered (the source's early
returns). -/
def search_actions (oracle : FqlOracle) (catalog : List Entry) (query : Str)
    (vendorF : Option Str) : List Entry × Tier :=
  match oracle (some query) vendorF with
  | some results =>
    if 0 < results.length then (results, Tier.direct)
    else search_fallback oracle catalog query vendorF
  | none => search_fallback oracle catalog query vendorF

theorem filter_filter_list {α : Type} (l : List α) (p q : α → Bool) :
    (l.filter p).filter q = l.filter (fun a => p a && q a) := by
  induction l with
  | nil => rfl
  | cons x xs ih =>
    by_cases hp : p x
    · by_cases hq : q x
      · simp [List.filter_cons, hp, hq, ih]
      · simp [List.filter_cons, hp, hq, ih]
    · simp [List.filter_cons, hp, ih]

theorem fqlFilter_full (q : Str) (v : Option Str) (catalog : List Entry) :
    fqlFilter (some q) v catalog = client_side_search q v catalog := by
  unfold fqlFilter client_side_search
  apply List.filter_congr
  intro r _
  unfold csPred fqlNamePass
  cases q with
  | nil => simp [hasSub_nil, lowerL]
  | cons a as => simp [List.isEmpty_cons]

theorem narrowed_eq (query : Str) (v : Option Str) (catalog : List Entry)
    (hne : splitWsL query ≠ []) :
    (fqlFilter (some (maxByLen (splitWsL query))) v catalog).filter
      (fun r => hasSub (lowerL query) (lowerL r.name)) =
    client_side_search query v catalog := by
  have hmem : maxByLen (splitWsL query) ∈ splitWsL query := maxByLen_mem _ hne
  have hLq : hasSub (maxByLen (splitWsL query)) query = true := splitWsL_sub _ _ hmem
  have hLl : hasSub (lowerL (maxByLen (splitWsL query))) (lowerL query) = true :=
    hasSub_map _ _ _ hLq
  unfold fqlFilter
  rw [filter_filter_list]
  unfold client_side_search
  apply List.filter_congr
  intro r _
  cases hq : hasSub (lowerL query) (lowerL r.name) with
  | false => simp [csPred, hq]
  | true =>
    have hL : fqlNamePass (some (maxByLen (splitWsL query))) r = true := by
      unfold fqlNamePass
      by_cases hLe : (maxByLen (splitWsL query)).isEmpty
      · simp [hLe]
      · simp only [hLe, if_false]
        exact hasSub_trans _ _ _ hLl hq
    simp [csPred, hq, hL]

theorem search_fallback_scan (oracle : FqlOracle) (catalog : List Entry) (query : Str)
    (vendorF : Option Str) (hs : fqlSound catalog oracle) :
    (search_fallback oracle catalog query vendorF).1 =
      client_side_search query vendorF catalog := by
  unfold search_fallback
  by_cases hw : 1 < (splitWsL query).length
  · simp only [hw, if_true]
    cases ho : oracle (some (maxByLen (splitWsL query))) vendorF with
    | none => rfl
    | some fr =>
      by_cases hfr : 0 < fr.length
      · simp only [hfr, if_true]
        rcases hs _ _ _ ho with rfl | rfl
        · simp at hfr
        · exact narrowed_eq query vendorF catalog
            (List.ne_nil_of_length_pos (by omega))
      · simp only [hfr, if_false]
  · simp only [hw, if_false]

/-- Claim C1: for every search query (text plus optional vendor filter) and
every remote catalog served by a sound FQL oracle, the result set returned by
`search_actions` via any tier (direct remote filter, narrowed remote filter on
the longest token plus client-side filtering, or full scan) equals the result
of applying the full-scan tier's client-side filter — case-insensitive
name-substring match AND optional case-insensitive vendor equality — to the
same catalog. -/
theorem search_tiers_agree_with_full_scan (oracle : FqlOracle) (catalog : List Entry)
    (query : Str) (vendorF : Option Str) (hs : fqlSound catalog oracle) :
    (search_actions oracle catalog query vendorF).1 =
      client_side_search query vendorF catalog := by
  unfold search_actions
  cases ho : oracle (some query) vendorF with
  | none => exact search_fallback_scan oracle catalog query vendorF hs
  | some results =>
    by_cases hr : 0 < results.length
    · simp only [hr, if_true]
      rcases hs _ _ _ ho with rfl | rfl
      · simp at hr
      · exact fqlFilter_full query vendorF catalog
    · simp only [hr, if_false]
      exact search_fallback_scan oracle catalog query vendorF hs

def catalogC1 : List Entry :=
  [⟨"Contain host".toList, "X".toList⟩, ⟨"Other action".toList, "Y".toList⟩]

def oracleC1 : FqlOracle := fun q v => some (fqlFilter q v catalogC1)

/-- Witness for C1 at a concrete catalog and a sound oracle. -/
theorem search_tiers_agree_with_full_scan_witness :
    fqlSound catalogC1 oracleC1 ∧
    (search_actions oracleC1 catalogC1 ("contain".toList) none).1 =
      client_side_search ("contain".toList) none catalogC1 :=
  ⟨fun _ _ _ h => Or.inr (Option.some.inj h).symm,
   search_tiers_agree_with_full_scan oracleC1 catalogC1 ("contain".toList) none
     (fun _ _ _ h => Or.inr (Option.some.inj h).symm)⟩

def catalogC2 : List Entry := [⟨"xabx".toList, "v".toList⟩]

def oracleC2 : FqlOracle := fun q v => some (fqlFilter q v catalogC2)

/-- Counterexample to claim C2.  The claim says the narrowed tier's result is
returned only when the full substring match over the candidate set is
non-empty, and that otherwise the resolver proceeds to the full-scan fallback.
On query "ab cd" over a catalog with the single entry "xabx", the narrowed
candidate set (longest token "ab") is non-empty, the client-side filter over it
for "ab cd" is empty, yet `search_actions` returns that empty narrowed result
(tier `narrowed`) and never reaches the full-scan tier. -/
theorem narrowed_tier_returns_empty_filtered_set :
    oracleC2 (some (maxByLen (splitWsL ("ab cd".toList)))) none =
      some [⟨"xabx".toList, "v".toList⟩] ∧
    ([⟨"xabx".toList, "v".toList⟩] : List Entry).filter
      (fun r => hasSub (lowerL ("ab cd".toList)) (lowerL r.name)) = [] ∧
    search_actions oracleC2 catalogC2 ("ab cd".toList) none = ([], Tier.narrowed) := by
  refine ⟨by decide, by decide, by decide⟩

/-- Claim C2, amended: for every multi-token query where the direct remote
filter fails or returns empty and the narrowed remote filter on the longest
token returns a non-empty candidate set, the resolver returns the full original
substring match applied client-side over that candidate set — even when that
filtered set is empty; the full-scan fallback is reached only when the direct
and narrowed tiers fail or return empty sets. -/
theorem narrowed_tier_returned_when_candidates_nonempty (oracle : FqlOracle)
    (catalog : List Entry) (query : Str) (vendorF : Option Str) (fr : List Entry)
    (hdirect : oracle (some query) vendorF = none ∨ oracle (some query) vendorF = some [])
    (hmulti : 1 < (splitWsL query).length)
    (hnarrow : oracle (some (maxByLen (splitWsL query))) vendorF = some fr)
    (hfr : 0 < fr.length) :
    search_actions oracle catalog query vendorF =
      (fr.filter (fun r => hasSub (lowerL query) (lowerL r.name)), Tier.narrowed) := by
  have hfall : search_fallback oracle catalog query vendorF =
      (fr.filter (fun r => hasSub (lowerL query) (lowerL r.name)), Tier.narrowed) := by
    unfold search_fallback
    simp only [hmulti, if_true, hnarrow, hfr]
  rcases hdirect with h | h
  · unfold search_actions
    rw [h]
    exact hfall
  · unfold search_actions
    rw [h]
    simpa using hfall

/-- Witness for the amended C2 at the concrete counterexample scenario. -/
theorem narrowed_tier_returned_when_candidates_nonempty_witness :
    search_actions oracleC2 catalogC2 ("ab cd".toList) none =
      (([⟨"xabx".toList, "v".toList⟩] : List Entry).filter
        (fun r => hasSub (lowerL ("ab cd".toList)) (lowerL r.name)), Tier.narrowed) :=
  narrowed_tier_returned_when_candidates_nonempty oracleC2 catalogC2 ("ab cd".toList) none
    [⟨"xabx".toList, "v".toList⟩] (Or.inr (by decide)) (by decide) (by decide) (by decide)

/-!
Paginated fetcher (`_paginate_all` in `action_search.py`).  The remote is an
oracle from (offset, attempt number) to a page response; `exn` models a raised
request exception.  A run log records the observable effects: each `api_get`
call, each `time.sleep` duration, the "Failed after 3 retries at offset N"
event, and the `_save_cache` write.  The catalog entry type is abstract here
because the fetcher never inspects entries.  The display-only `progress`
prints are omitted.  The source's `while True` loop terminates because each
successful non-empty page advances `offset` by at least one towards the fixed
`total`; the `fuel` argument carries that bound explicitly (the top-level call
supplies `total - offset`, which is always sufficient).
-/

inductive PageResp (α : Type) where
  | exn : PageResp α
  | page (resources : List α) (total : Nat) : PageResp α
deriving DecidableEq, Repr

structure PagLog (α : Type) where
  calls : List (Nat × Nat)
  sleeps : List Nat
  failedAt : Option Nat
  cacheWrite : Option (List α)
deriving DecidableEq, Repr

/-- One page fetch with the source's retry loop (`max_retries = 3`) unrolled:
attempt `a` failing with `a < 3` sleeps `2 * a` seconds; after the third
failure the caller gives up on the page. -/
def fetchPage {α : Type} (remote : Nat → Nat → PageResp α) (offset : Nat) :
    Option (List α × Nat) × List (Nat × Nat) × List Nat :=
  match remote offset 1 with
  | .page rs t => (some (rs, t), [(offset, 1)], [])
  | .exn =>
    match remote offset 2 with
    | .page rs t => (some (rs, t), [(offset, 1), (offset, 2)], [2])
    | .exn =>
      match remote offset 3 with
      | .page rs t => (some (rs, t), [(offset, 1), (offset, 2), (offset, 3)], [2, 4])
      | .exn => (none, [(offset, 1), (offset, 2), (offset, 3)], [2, 4])

/-- The `while True` body of `_paginate_all` after the first page fixed
`total`: exhausted retries return the accumulator (cached only if non-empty);
an empty page breaks and saves; reaching `total` breaks and saves. -/
def pagGo {α : Type} (remote : Nat → Nat → PageResp α) (total : Nat) :
    Nat → Nat → List α → List (Nat × Nat) → List Nat → List α × PagLog α
  | 0, _, acc, calls, sleeps => (acc, ⟨calls, sleeps, none, some acc⟩)
  | fuel + 1, offset, acc, calls, sleeps =>
    match fetchPage remote offset with
    | (none, cs, ss) =>
      (acc, ⟨calls ++ cs, sleeps ++ ss, some offset,
             if acc.isEmpty then none else some acc⟩)
    | (some (page, _), cs, ss) =>
      if page.isEmpty then (acc, ⟨calls ++ cs, sleeps ++ ss, none, some acc⟩)
      else
        if total ≤ offset + page.length then
          (acc ++ page, ⟨calls ++ cs, sleeps ++ ss, none, some (acc ++ page)⟩)
        else
          pagGo remote total fuel (offset + page.length) (acc ++ page)
            (calls ++ cs) (sleeps ++ ss)

/-- `_paginate_all` on a cache miss: fetch page 0 (establishing `total`), then
loop.  All-retries-failed with nothing accumulated returns `[]` without a cache
write; an empty first page breaks and saves the empty catalog. -/
def paginateAllFresh {α : Type} (remote : Nat → Nat → PageResp α) : List α × PagLog α :=
  match fetchPage remote 0 with
  | (none, cs, ss) => ([], ⟨cs, ss, some 0, none⟩)
  | (some (page, t), cs, ss) =>
    if page.isEmpty then ([], ⟨cs, ss, none, some []⟩)
    else
      if t ≤ page.length then (page, ⟨cs, ss, none, some page⟩)
      else pagGo remote t (t - page.length) page.length page cs ss

/-- `_paginate_all` including the cache consultation at the top. -/
def paginate_all {α : Type} (cached : Option (List α)) (remote : Nat → Nat → PageResp α) :
    List α × PagLog α :=
  match cached with
  | some c => (c, ⟨[], [], none, none⟩)
  | none => paginateAllFresh remote

/-- Claim C4, amended: when every attempt to fetch the page at some offset
fails, the fetcher performs exactly 3 attempts for that page, sleeping
2 seconds times the attempt number between consecutive attempts (2s then 4s),
then stops without raising past its boundary and returns all entries
accumulated from prior pages intact.  No incompleteness flag is attached to the
returned list: the partial result has the same shape as a complete one (the
cache write is skipped only when nothing was accumulated). -/
theorem retry_exhaustion_returns_accumulated {α : Type}
    (remote : Nat → Nat → PageResp α) (total fuel offset : Nat) (acc : List α)
    (calls : List (Nat × Nat)) (sleeps : List Nat)
    (h : ∀ a, remote offset a = PageResp.exn) :
    pagGo remote total (fuel + 1) offset acc calls sleeps =
      (acc, ⟨calls ++ [(offset, 1), (offset, 2), (offset, 3)], sleeps ++ [2, 4],
             some offset, if acc.isEmpty then none else some acc⟩) := by
  have hf : fetchPage remote offset =
      (none, [(offset, 1), (offset, 2), (offset, 3)], [2, 4]) := by
    simp [fetchPage, h 1, h 2, h 3]
  simp [pagGo, hf]

/-- Witness for the amended C4: every attempt at offset 5 fails; the prior
accumulator `[9]` is returned intact after calls at attempts 1, 2, 3 and sleeps
of 2 and 4 seconds. -/
theorem retry_exhaustion_returns_accumulated_witness :
    pagGo (fun _ _ => PageResp.exn (α := Nat)) 10 1 5 [9] [(0, 1)] [] =
      ([9], ⟨[(0, 1), (5, 1), (5, 2), (5, 3)], [2, 4], some 5, some [9]⟩) :=
  retry_exhaustion_returns_accumulated _ 10 0 5 [9] [(0, 1)] [] (fun _ => rfl)

def remoteTrunc : Nat → Nat → PageResp Nat := fun offset _ =>
  if offset = 0 then PageResp.page [7] 5 else PageResp.exn

def remoteFull : Nat → Nat → PageResp Nat := fun offset _ =>
  if offset = 0 then PageResp.page [7] 1 else PageResp.exn

/-- Counterexample to claim C4's "flagged incomplete" conjunct.  Against
`remoteTrunc` the fetch truncates (the page at offset 1 of a reported total of
5 fails all 3 attempts), against `remoteFull` it completes; yet the value
returned to the caller is the identical bare list `[7]` in both runs, so no
incompleteness flag is attached to the returned result.  Only the console
"Failed after 3 retries" event (the `failedAt` log field) distinguishes the
runs, not the returned data. -/
theorem partial_result_not_flagged :
    (paginateAllFresh remoteTrunc).1 = (paginateAllFresh remoteFull).1 ∧
    (paginateAllFresh remoteTrunc).2.failedAt = some 1 ∧
    (paginateAllFresh remoteFull).2.failedAt = none := by
  refine ⟨by decide, by decide, by decide⟩

theorem pagGo_cacheWrite {α : Type} (remote : Nat → Nat → PageResp α) (total : Nat) :
    ∀ (fuel offset : Nat) (acc : List α) (calls : List (Nat × Nat)) (sleeps : List Nat),
    (pagGo remote total fuel offset acc calls sleeps).2.cacheWrite =
        some (pagGo remote total fuel offset acc calls sleeps).1 ∨
    ((pagGo remote total fuel offset acc calls sleeps).1 = acc ∧ acc = [] ∧
     (pagGo remote total fuel offset acc calls sleeps).2.cacheWrite = none ∧
     (pagGo remote total fuel offset acc calls sleeps).2.failedAt = some offset) := by
  intro fuel
  induction fuel with
  | zero => intro offset acc calls sleeps; exact Or.inl rfl
  | succ n ih =>
    intro offset acc calls sleeps
    simp only [pagGo]
    split
    · by_cases hacc : acc = []
      · subst hacc; exact Or.inr ⟨rfl, rfl, by simp, rfl⟩
      · exact Or.inl (by simp [List.isEmpty_iff, hacc])
    · split
      · exact Or.inl rfl
      · split
        · exact Or.inl rfl
        · rename_i page t cs ss heq hpe hle
          rcases ih (offset + page.length) (acc ++ page) (calls ++ cs) (sleeps ++ ss)
            with h | ⟨h1, h2, h3, h4⟩
          · exact Or.inl h
          · rcases List.append_eq_nil.mp h2 with ⟨-, rfl⟩
            simp at hpe

/-- Claim C6: whenever a full paginated fetch completes successfully (no
retry-exhaustion event), or stops early with a non-empty partial result, the
fetcher writes exactly the accumulated entry sequence to the cache store. -/
theorem fetch_persists_accumulated {α : Type} (remote : Nat → Nat → PageResp α)
    (h : (paginateAllFresh remote).2.failedAt = none ∨ (paginateAllFresh remote).1 ≠ []) :
    (paginateAllFresh remote).2.cacheWrite = some (paginateAllFresh remote).1 := by
  unfold paginateAllFresh at h ⊢
  rcases hfp : fetchPage remote 0 with ⟨o, cs, ss⟩
  rw [hfp] at h
  cases o with
  | none => simp at h
  | some p =>
    rcases p with ⟨page, t⟩
    by_cases hpe : page.isEmpty
    · simp [hpe]
    · simp only [hpe, if_false] at h ⊢
      by_cases hle : t ≤ page.length
      · simp [hle]
      · simp only [hle, if_false] at h ⊢
        rcases pagGo_cacheWrite remote t (t - page.length) page.length page cs ss
          with h' | ⟨h1, h2, h3, h4⟩
        · exact h'
        · subst h2; simp at hpe

/-- The spec's Scenario E remote: pages of 200 entries at offsets 0 and 200,
then every attempt at offset 400 fails. -/
def remote400 : Nat → Nat → PageResp Nat := fun offset _ =>
  if offset < 400 then PageResp.page (List.range' offset 200) 600 else PageResp.exn

set_option maxRecDepth 100000 in
/-- Witness for C6 (Scenario E): the page at offset 400 fails 3 times; the
entries from offsets 0-399 are returned and still persisted to the cache. -/
theorem fetch_persists_accumulated_witness :
    (paginateAllFresh remote400).1 = List.range' 0 400 ∧
    (paginateAllFresh remote400).2.failedAt = some 400 ∧
    (paginateAllFresh remote400).2.cacheWrite = some ((paginateAllFresh remote400).1) :=
  ⟨by decide, by decide, fetch_persists_accumulated remote400 (Or.inr (by decide))⟩

/-!
Cache store (`_load_cache` / `_save_cache` / `_clear_cache` in
`action_search.py`).  The cache file on disk is either missing, unparseable
(JSON decode error, missing key, or OS read error — all caught and treated as
no cache), or a `{ts, resources}` record.  `time.time()` is modelled as an
integer clock passed in explicitly; `_CACHE_TTL = 3600`.
-/

inductive CacheState (α : Type) where
  | missing : CacheState α
  | corrupt : CacheState α
  | file (ts : Int) (resources : List α) : CacheState α
deriving DecidableEq, Repr

/-- `_load_cache`: absent file, unreadable data, or stale timestamp all yield
`none`; a fresh file yields its resources. -/
def loadCache {α : Type} (now : Int) : CacheState α → Option (List α)
  | .missing => none
  | .corrupt => none
  | .file ts rs => if now - ts < 3600 then some rs else none

/-- `_save_cache`: write `{ts: now, resources}`. -/
def saveCache {α : Type} (now : Int) (rs : List α) : CacheState α :=
  CacheState.file now rs

/-- `os.path.isfile` on the cache path. -/
def cacheFileIsOnDisk {α : Type} : CacheState α → Bool
  | .missing => false
  | _ => true

/-- Claim C5: saving an entry sequence and loading strictly less than 3600
seconds later returns the sequence unchanged with order preserved; loading
3600 seconds or more after the save returns absent even though the cache file
still exists on disk. -/
theorem cache_round_trip {α : Type} (rs : List α) (ts d : Int) :
    (d < 3600 → loadCache (ts + d) (saveCache ts rs) = some rs) ∧
    (3600 ≤ d → loadCache (ts + d) (saveCache ts rs) = none ∧
      cacheFileIsOnDisk (saveCache ts rs) = true) := by
  have hd : ts + d - ts = d := by ring
  constructor
  · intro h
    simp only [saveCache, loadCache, hd]
    rw [if_pos h]
  · intro h
    refine ⟨?_, rfl⟩
    simp only [saveCache, loadCache, hd]
    rw [if_neg (by omega)]

/-- Witness for C5 at a concrete entry list, save time 100, and offsets 10
(fresh) and 3600 (expired). -/
theorem cache_round_trip_witness :
    loadCache (100 + 10) (saveCache 100 [1, 2, 3]) = some [1, 2, 3] ∧
    loadCache (100 + 3600) (saveCache 100 [1, 2, 3]) = none ∧
    cacheFileIsOnDisk (saveCache 100 [1, 2, 3]) = true :=
  ⟨(cache_round_trip [1, 2, 3] 100 10).1 (by decide),
   (cache_round_trip [1, 2, 3] 100 3600).2 (by decide)⟩

/-!
Execution poller (`poll_results` in `execute.py`).  The results endpoint is an
oracle from the poll attempt number to a response: a raised transport error, an
empty resource list, or a status string.  Wall-clock time is modelled as the
accumulated sleep time (each `api_get` is instantaneous); the loop guard
`time.time() - start < timeout` is checked before each poll and `time.sleep
(interval)` runs after each poll.  The `while` loop is driven by fuel;
`timeout + 1` iterations always suffice for `interval ≥ 1`.
-/

inductive PollResp where
  | exn : PollResp
  | empty : PollResp
  | st (s : Str) : PollResp
deriving DecidableEq, Repr

/-- `status in ("completed", "failed", "error")`. -/
def isTerminalStatus (s : Str) : Bool :=
  s == "completed".toList || s == "failed".toList || s == "error".toList

/-- Whether a poll response ends the loop: only a resource whose status is
terminal does (exceptions are printed and swallowed; an empty resource list and
a non-terminal status just wait for the next tick). -/
def isTermResp : PollResp → Bool
  | .st s => isTerminalStatus s
  | _ => false

/-- The poll loop: `elapsed` is the wall clock relative to `start`, `n` the
number of status checks performed so far.  Returns the terminal result (if
any) and the total number of status checks. -/
def pollAux (oracle : Nat → PollResp) (timeout interval : Nat) :
    Nat → Nat → Nat → Option Str × Nat
  | 0, _, n => (none, n)
  | fuel + 1, elapsed, n =>
    if elapsed < timeout then
      match oracle n with
      | .st s =>
        if isTerminalStatus s then (some s, n + 1)
        else pollAux oracle timeout interval fuel (elapsed + interval) (n + 1)
      | _ => pollAux oracle timeout interval fuel (elapsed + interval) (n + 1)
    else (none, n)

/-- `poll_results(execution_id, timeout, interval)`: returns the terminal
result body or `None` on timeout, paired with the number of status checks. -/
def poll_results (oracle : Nat → PollResp) (timeout interval : Nat) : Option Str × Nat :=
  pollAux oracle timeout interval (timeout + 1) 0 0

theorem pollAux_step (oracle : Nat → PollResp) (timeout interval fuel fuel2 elapsed n : Nat)
    (hf : fuel = fuel2 + 1) (ht : elapsed < timeout) (hnt : isTermResp (oracle n) = false) :
    pollAux oracle timeout interval fuel elapsed n =
      pollAux oracle timeout interval fuel2 (elapsed + interval) (n + 1) := by
  subst hf
  cases ho : oracle n with
  | exn => simp [pollAux, ht, ho]
  | empty => simp [pollAux, ht, ho]
  | st s =>
    have hs : isTerminalStatus s = false := by simpa [isTermResp, ho] using hnt
    simp [pollAux, ht, ho, hs]

theorem pollAux_stop (oracle : Nat → PollResp) (timeout interval fuel fuel2 elapsed n : Nat)
    (hf : fuel = fuel2 + 1) (ht : ¬ elapsed < timeout) :
    pollAux oracle timeout interval fuel elapsed n = (none, n) := by
  subst hf
  simp [pollAux, ht]

/-- Claim C7: for every execution whose polled status never reaches a terminal
value (completed, failed, or error), the poller with `timeout = 10` and
`interval = 5` performs exactly 2 status checks and then returns the
distinguished no-result outcome `none` — the unknown "may still be running"
outcome, not an error (transport errors during polling are swallowed by the
loop and never escape). -/
theorem poll_timeout_two_checks (oracle : Nat → PollResp)
    (h : ∀ n, isTermResp (oracle n) = false) :
    poll_results oracle 10 5 = (none, 2) := by
  show pollAux oracle 10 5 (10 + 1) 0 0 = (none, 2)
  rw [pollAux_step oracle 10 5 (10 + 1) 10 0 0 rfl (by omega) (h 0)]
  rw [pollAux_step oracle 10 5 10 9 5 1 (by omega) (by omega) (h 1)]
  rw [pollAux_stop oracle 10 5 9 8 10 2 (by omega) (by omega)]

/-- Witness for C7: a remote that always answers with a non-terminal running
status. -/
theorem poll_timeout_two_checks_witness :
    poll_results (fun _ => PollResp.st ("running".toList)) 10 5 = (none, 2) :=
  poll_timeout_two_checks _ (fun _ => by decide)

/-!
Validation (`validate.py`).  A file under validation is modelled by whether it
exists, its content as a list of lines (the source reads the whole file and
`splitlines()`s it; placeholder scanning runs over the newline-joined
content), and the outcome of the external remote dry-run (`api_validate`,
which wraps `api_post_multipart` with `validate_only=true`).  Issue messages
are built exactly as in the source; severity is judged by
`issue.startswith("ERROR")` as there.  `REQUIRED_KEYS = {"name", "trigger"}`
is a Python set whose iteration order is unspecified; the model fixes the
order name-then-trigger, which affects only message order, never the
error/no-error verdict.
-/

/-- The ASCII apostrophe, kept out of string literals. -/
def sqc : Char := Char.ofNat 39

/-- Python `\s` inside a single line (no newlines remain after splitting). -/
def isSpc (c : Char) : Bool :=
  c == ' ' || c == '\t' || c == '\x0b' || c == '\x0c' || c == '\r'

/-- Strip `key` from the head of `l`, or fail. -/
def dropLead : Str → Str → Option Str
  | [], l => some l
  | _ :: _, [] => none
  | a :: as, b :: bs => if a == b then dropLead as bs else none

/-- The regex `^key\s*:` applied at the start of one line. -/
def keyLine (key : Str) (l : Str) : Bool :=
  match dropLead key l with
  | none => false
  | some rest =>
    match rest.dropWhile isSpc with
    | ':' :: _ => true
    | _ => false

/-- `re.search(rf"^{key}\s*:", content, re.MULTILINE)`: some line matches. -/
def keyFound (lines : List Str) (key : Str) : Bool :=
  lines.any (keyLine key)

/-- `[A-Z_]` (the placeholder pattern's character class). -/
def isUpperOr (c : Char) : Bool := ('A' ≤ c && c ≤ 'Z') || c == '_'

/-- Match `PLACEHOLDER_[A-Z_]+` at the head of `s`; on success return the
(greedy) match and the remainder. -/
def phMatch (s : Str) : Option (Str × Str) :=
  match dropLead ("PLACEHOLDER_".toList) s with
  | none => none
  | some rest =>
    match rest.takeWhile isUpperOr with
    | [] => none
    | run => some ("PLACEHOLDER_".toList ++ run, rest.drop run.length)

/-- `re.findall` scan: left-to-right, non-overlapping, greedy.  Each step
consumes at least one character, so `s.length` fuel suffices. -/
def findPHAux : Nat → Str → List Str
  | 0, _ => []
  | _ + 1, [] => []
  | fuel + 1, s@(_ :: t) =>
    match phMatch s with
    | some (m, rest) => m :: findPHAux fuel rest
    | none => findPHAux fuel t

def findAllPH (s : Str) : List Str := findPHAux s.length s

/-- Lexicographic order on character lists, for Python `sorted`. -/
def strLe : Str → Str → Bool
  | [], _ => true
  | _ :: _, [] => false
  | a :: as, b :: bs => if a == b then strLe as bs else decide (a < b)

/-- The newline-joined file content handed to the regex scans. -/
def joinNl : List Str → Str
  | [] => []
  | [l] => l
  | l :: ls => l ++ '\n' :: joinNl ls

def warnHeaderMsg : Str :=
  "WARNING: Missing header comment (first line should start with #)".toList

def errKeyMsg (key : Str) : Str :=
  ("ERROR: Missing required top-level key ".toList ++ [sqc]) ++ (key ++ [sqc])

/-- Python `", ".join(...)`. -/
def joinCommaSp : List Str → Str
  | [] => []
  | [m] => m
  | m :: ms => m ++ ", ".toList ++ joinCommaSp ms

def errPhMsg (phs : List Str) : Str :=
  "ERROR: Found PLACEHOLDER markers that must be replaced: ".toList ++
    joinCommaSp ((phs.eraseDups).mergeSort strLe)

def fileNotFoundMsg (path : Str) : Str := "File not found: ".toList ++ path

def preFlightFailMsg : Str :=
  "Pre-flight FAILED — fix errors above before API validation".toList

structure FileM where
  fname : Str
  wfName : Option Str
  present : Bool
  lines : List Str
  apiOk : Bool
  apiMsg : Str
  impOk : Bool
  impId : Option Str
deriving DecidableEq, Repr

/-- `preflight_check(file_path)`: header-comment warning, required-key errors,
placeholder errors, in source order. -/
def preflight_check (f : FileM) : List Str :=
  if !f.present then [fileNotFoundMsg f.fname]
  else
    (match f.lines with
     | [] => [warnHeaderMsg]
     | l :: _ => if leadEq ("#".toList) l then [] else [warnHeaderMsg]) ++
    (if keyFound f.lines ("name".toList) then [] else [errKeyMsg ("name".toList)]) ++
    (if keyFound f.lines ("trigger".toList) then [] else [errKeyMsg ("trigger".toList)]) ++
    (match findAllPH (joinNl f.lines) with
     | [] => []
     | phs => [errPhMsg phs])

/-- `issue.startswith("ERROR")`. -/
def isErrMsg (m : Str) : Bool := leadEq ("ERROR".toList) m

/-- `validate_file(file_path, preflight_only)`: returns (passed, messages,
api-dry-run-performed).  The third component instruments whether the remote
dry-run call was made. -/
def validate_file (f : FileM) (preflightOnly : Bool) : Bool × List Str × Bool :=
  let issues := preflight_check f
  if issues.any isErrMsg then (false, issues ++ [preFlightFailMsg], false)
  else if preflightOnly then
    (true, issues ++ (if issues.isEmpty then ["Pre-flight passed".toList] else []), false)
  else
    if f.apiOk then (true, issues ++ ["API validation passed".toList], true)
    else (false, issues ++ ("API validation FAILED: ".toList ++ f.apiMsg) :: [], true)

/-!
Import lifecycle orchestrator (`import_workflow.py` `main`).  The existing
definitions index is the dict `{d.get("name", "").lower(): d for d in
all_defs}` (later entries shadow earlier ones); `fetch_all_definitions` is a
single remote call whose outcome (list or raised exception) is an input, and
the model counts how many times it is performed.  Per file, the loop body is
duplicate check (guarded by the index dict being truthy, i.e. non-empty), then
validation via `validate_file`, then import; `extract_name_from_yaml` and
`import_file` are external boundaries carried as fields of `FileM`.  The
`ItemOut` record is the `(basename, status, workflow_id)` results tuple plus
two instrumentation flags recording whether validation and import ran.
-/

structure DefM where
  dname : Str
  did : Str
deriving DecidableEq, Repr

def buildIndex (defs : List DefM) : List (Str × DefM) :=
  defs.map (fun d => (lowerL d.dname, d))

/-- Python dict lookup over the comprehension-built index: the last binding of
a key wins. -/
def dictGet : List (Str × DefM) → Str → Option DefM
  | [], _ => none
  | (k, d) :: rest, key =>
    match dictGet rest key with
    | some d2 => some d2
    | none => if k == key then some d else none

/-- `check_duplicate(name, existing_names)`: case-insensitive lookup returning
the existing definition id.  (Definition entries model non-empty dicts, so the
source's `if match:` truthiness test is their presence.) -/
def check_duplicate (name : Str) (existing : List (Str × DefM)) : Option Str :=
  match dictGet existing (lowerL name) with
  | some d => some d.did
  | none => none

/-- The duplicate-check prefix of the loop body: runs only when the index dict
is truthy (non-empty); `if wf_name:` and `if dup_id:` are Python string
truthiness (`none` or empty both falsy). -/
def dupIdFor (existing : List (Str × DefM)) (f : FileM) : Option Str :=
  if existing.isEmpty then none
  else
    match f.wfName with
    | none => none
    | some nm =>
      if nm.isEmpty then none
      else
        match check_duplicate nm existing with
        | some i => if i.isEmpty then none else some i
        | none => none

structure ItemOut where
  fname : Str
  status : Str
  wfId : Option Str
  ranValidate : Bool
  ranImport : Bool
deriving DecidableEq, Repr

/-- One iteration of the batch loop: duplicate-check, validate, import. -/
def processFile (skipValidate : Bool) (existing : List (Str × DefM)) (f : FileM) :
    ItemOut :=
  match dupIdFor existing f with
  | some _ => ⟨f.fname, "DUPLICATE".toList, none, false, false⟩
  | none =>
    if !skipValidate && !(validate_file f false).1 then
      ⟨f.fname, "VALIDATION FAILED".toList, none, true, false⟩
    else if f.impOk then ⟨f.fname, "IMPORTED".toList, f.impId, !skipValidate, true⟩
    else ⟨f.fname, "IMPORT FAILED".toList, none, !skipValidate, true⟩

def processBatch (skipValidate : Bool) (existing : List (Str × DefM))
    (files : List FileM) : List ItemOut :=
  files.map (processFile skipValidate existing)

/-- `[r for r in results if "FAILED" in r[1]]`. -/
def failedRows (rows : List ItemOut) : List ItemOut :=
  rows.filter (fun r => hasSub ("FAILED".toList) r.status)

/-- `[r for r in results if r[1] == "DUPLICATE"]`. -/
def duplicateRows (rows : List ItemOut) : List ItemOut :=
  rows.filter (fun r => r.status == "DUPLICATE".toList)

/-- `if failed or duplicates: sys.exit(1)`. -/
def exitNonzero (rows : List ItemOut) : Bool :=
  !(failedRows rows).isEmpty || !(duplicateRows rows).isEmpty

/-- Outcome of the single `fetch_all_definitions()` pre-fetch. -/
inductive FetchOutcome where
  | ok (defs : List DefM)
  | exn
deriving DecidableEq, Repr

/-- The pre-fetch block of `main`: skipping leaves the index empty with no
remote call; a raised fetch warns and leaves the index empty; otherwise the
index is built once.  The second component counts fetch calls. -/
def buildIndexMain (skipDup : Bool) (fetch : FetchOutcome) :
    List (Str × DefM) × Nat :=
  if skipDup then ([], 0)
  else
    match fetch with
    | .ok ds => (buildIndex ds, 1)
    | .exn => ([], 1)

/-- `main`: pre-fetch once, then process every file. -/
def mainRun (skipValidate skipDup : Bool) (fetch : FetchOutcome)
    (files : List FileM) : List ItemOut × Nat :=
  (processBatch skipValidate (buildIndexMain skipDup fetch).1 files,
   (buildIndexMain skipDup fetch).2)

theorem errPh_isErr (phs : List Str) : isErrMsg (errPhMsg phs) = true := by
  unfold isErrMsg errPhMsg
  exact leadEq_append _ _ _ (by decide)

theorem errKey_isErr (key : Str) : isErrMsg (errKeyMsg key) = true := by
  unfold isErrMsg errKeyMsg
  exact leadEq_append _ _ _ (by decide)

theorem preflight_any_err (f : FileM) (hp : f.present = true) :
    (preflight_check f).any isErrMsg =
      (!keyFound f.lines ("name".toList) || !keyFound f.lines ("trigger".toList) ||
       !(findAllPH (joinNl f.lines)).isEmpty) := by
  have hw : isErrMsg warnHeaderMsg = false := by decide
  unfold preflight_check
  rw [hp]
  simp only [Bool.not_true, Bool.false_eq_true, if_false, List.any_append]
  cases hlines : f.lines with
  | nil => decide
  | cons l rest =>
    cases hl : leadEq ("#".toList) l <;>
    cases hn : keyFound (l :: rest) ("name".toList) <;>
    cases ht : keyFound (l :: rest) ("trigger".toList) <;>
    cases hph : findAllPH (joinNl (l :: rest)) <;>
    simp [hl, hn, ht, hph, hw, errKey_isErr, errPh_isErr]

/-- Claim C9: for every existing input file, the pre-flight verdict has an
ERROR issue exactly when a required top-level key (`name` or `trigger`) is
missing or an unresolved PLACEHOLDER marker is present; any such structural
error makes `validate_file` return failure without performing the remote
dry-run; and when there is no error (warnings alone), the remote dry-run is
performed and alone decides the verdict. -/
theorem preflight_gates_api (f : FileM) (hp : f.present = true) :
    ((preflight_check f).any isErrMsg =
      (!keyFound f.lines ("name".toList) || !keyFound f.lines ("trigger".toList) ||
       !(findAllPH (joinNl f.lines)).isEmpty)) ∧
    ((preflight_check f).any isErrMsg = true →
      validate_file f false = (false, preflight_check f ++ [preFlightFailMsg], false)) ∧
    ((preflight_check f).any isErrMsg = false →
      (validate_file f false).1 = f.apiOk ∧ (validate_file f false).2.2 = true) := by
  refine ⟨preflight_any_err f hp, ?_, ?_⟩
  · intro h
    unfold validate_file
    simp only [h, if_true]
  · intro h
    unfold validate_file
    simp only [h, Bool.false_eq_true, if_false]
    cases ha : f.apiOk <;> simp

def fileC9 : FileM :=
  ⟨"wf.yaml".toList, some ("WF".toList), true,
   ["# header".toList, "name: WF".toList, "trigger: on demand".toList,
    "x: PLACEHOLDER_ID".toList],
   true, [], true, some ("ID1".toList)⟩

/-- Witness for C9: a file whose only pre-flight issue is an unresolved
PLACEHOLDER marker fails validation with no remote dry-run, even though its
remote dry-run outcome would have been a pass. -/
theorem preflight_gates_api_witness :
    (validate_file fileC9 false).1 = false ∧
    (validate_file fileC9 false).2.2 = false ∧
    (preflight_check fileC9).any isErrMsg = true ∧ fileC9.apiOk = true := by
  have h := (preflight_gates_api fileC9 rfl).2.1 (by decide)
  exact ⟨by rw [h], by rw [h], by decide, rfl⟩

theorem filter_isEmpty_any {β : Type} (l : List β) (p : β → Bool) :
    (!(l.filter p).isEmpty) = l.any p := by
  induction l with
  | nil => rfl
  | cons x xs ih =>
    by_cases hx : p x
    · simp [List.filter_cons, hx]
    · simp [List.filter_cons, hx, ih]

theorem any_or_split {β : Type} (l : List β) (p q : β → Bool) :
    l.any (fun a => p a || q a) = (l.any p || l.any q) := by
  induction l with
  | nil => rfl
  | cons x xs ih =>
    simp only [List.any_cons, ih]
    cases p x <;> cases q x <;> simp

theorem any_congr_mem {β : Type} (l : List β) (p q : β → Bool)
    (h : ∀ a ∈ l, p a = q a) : l.any p = l.any q := by
  induction l with
  | nil => rfl
  | cons x xs ih =>
    simp only [List.any_cons]
    rw [h x (List.mem_cons_self x xs), ih (fun a ha => h a (List.mem_cons_of_mem x ha))]

theorem exitNonzero_eq (rows : List ItemOut) :
    exitNonzero rows =
      rows.any (fun r => hasSub ("FAILED".toList) r.status ||
        r.status == "DUPLICATE".toList) := by
  unfold exitNonzero failedRows duplicateRows
  rw [filter_isEmpty_any, filter_isEmpty_any, any_or_split]

theorem processFile_fname (s : Bool) (e : List (Str × DefM)) (f : FileM) :
    (processFile s e f).fname = f.fname := by
  unfold processFile
  split
  · rfl
  · split
    · rfl
    · split <;> rfl

theorem processFile_status (s : Bool) (e : List (Str × DefM)) (f : FileM) :
    (processFile s e f).status = "DUPLICATE".toList ∨
    (processFile s e f).status = "VALIDATION FAILED".toList ∨
    (processFile s e f).status = "IMPORT FAILED".toList ∨
    (processFile s e f).status = "IMPORTED".toList := by
  unfold processFile
  split
  · exact Or.inl rfl
  · split
    · exact Or.inr (Or.inl rfl)
    · split
      · exact Or.inr (Or.inr (Or.inr rfl))
      · exact Or.inr (Or.inr (Or.inl rfl))

/-- Claim C3: every file of the batch is processed into exactly one report row
(no item's DUPLICATE or failure outcome aborts the batch — the report covers
all items in order), and the process exit status is non-zero if and only if at
least one item ended DUPLICATE, VALIDATION FAILED, or IMPORT FAILED. -/
theorem batch_complete_and_exit_code (skipV : Bool) (existing : List (Str × DefM))
    (files : List FileM) :
    (processBatch skipV existing files).length = files.length ∧
    (processBatch skipV existing files).map ItemOut.fname = files.map FileM.fname ∧
    exitNonzero (processBatch skipV existing files) =
      (processBatch skipV existing files).any
        (fun o => o.status == "DUPLICATE".toList ||
          o.status == "VALIDATION FAILED".toList ||
          o.status == "IMPORT FAILED".toList) := by
  refine ⟨by simp [processBatch], ?_, ?_⟩
  · induction files with
    | nil => rfl
    | cons x xs ih =>
      simp only [processBatch, List.map_cons] at ih ⊢
      rw [processFile_fname, ih]
  · rw [exitNonzero_eq]
    apply any_congr_mem
    intro o ho
    simp only [processBatch] at ho
    rcases List.mem_map.mp ho with ⟨f, hf, rfl⟩
    rcases processFile_status skipV existing f with h | h | h | h <;> rw [h] <;> decide

def defsC8 : List DefM := [⟨"alpha".toList, "WF-1".toList⟩]

def fileAlpha : FileM :=
  ⟨"alpha.yaml".toList, some ("Alpha".toList), true, [], true, [], true,
   some ("X1".toList)⟩

def fileBeta : FileM :=
  ⟨"beta.yaml".toList, some ("Beta".toList), true,
   ["# Beta".toList, "name: Beta".toList, "trigger: x".toList], true, [], true,
   some ("WF-2".toList)⟩

/-- Claim C8: with an existing remote definition "alpha", the batch
[Alpha, Beta] marks Alpha DUPLICATE by case-insensitive match without running
validation or import on it, while Beta proceeds to validation (and on success
to import); and the name index is built by exactly one remote fetch per batch
run however many files the batch has. -/
theorem duplicate_uses_shared_prefetched_index :
    processBatch false (buildIndexMain false (FetchOutcome.ok defsC8)).1
        [fileAlpha, fileBeta] =
      [⟨"alpha.yaml".toList, "DUPLICATE".toList, none, false, false⟩,
       ⟨"beta.yaml".toList, "IMPORTED".toList, some ("WF-2".toList), true, true⟩] ∧
    (∀ (files : List FileM) (skipV : Bool),
      (mainRun skipV false (FetchOutcome.ok defsC8) files).2 = 1) :=
  ⟨by decide, fun _ _ => rfl⟩

theorem processFile_empty_index (s : Bool) (f : FileM) :
    (processFile s [] f).status ≠ "DUPLICATE".toList ∧
    (processFile s [] f).ranValidate = !s := by
  have hred : processFile s [] f =
      (if !s && !(validate_file f false).1 then
        ⟨f.fname, "VALIDATION FAILED".toList, none, true, false⟩
      else if f.impOk then ⟨f.fname, "IMPORTED".toList, f.impId, !s, true⟩
      else ⟨f.fname, "IMPORT FAILED".toList, none, !s, true⟩) := rfl
  rw [hred]
  by_cases hv : (!s && !(validate_file f false).1) = true
  · rw [if_pos hv]
    have hs : s = false := by revert hv; cases s <;> simp
    subst hs
    exact ⟨by show "VALIDATION FAILED".toList ≠ "DUPLICATE".toList; decide, rfl⟩
  · rw [if_neg hv]
    by_cases hi : f.impOk
    · rw [if_pos hi]
      exact ⟨by show "IMPORTED".toList ≠ "DUPLICATE".toList; decide, rfl⟩
    · rw [if_neg hi]
      exact ⟨by show "IMPORT FAILED".toList ≠ "DUPLICATE".toList; decide, rfl⟩

/-- Claim C10: if the definitions pre-fetch raises, the batch continues with an
empty index (same when the remote returns an empty catalog); because the
per-item duplicate check is guarded by the index dict being non-empty, no item
can be marked DUPLICATE and every item proceeds directly to validation
(whenever validation is not skipped) and on to import. -/
theorem empty_index_disables_duplicate_check (skipV : Bool) (fetch : FetchOutcome)
    (files : List FileM)
    (h : fetch = FetchOutcome.exn ∨ fetch = FetchOutcome.ok []) :
    (buildIndexMain false fetch).1 = [] ∧
    ∀ o ∈ (mainRun skipV false fetch files).1,
      o.status ≠ "DUPLICATE".toList ∧ o.ranValidate = !skipV := by
  have hidx : (buildIndexMain false fetch).1 = [] := by
    rcases h with rfl | rfl <;> rfl
  refine ⟨hidx, ?_⟩
  intro o ho
  have hmr : (mainRun skipV false fetch files).1 = processBatch skipV [] files := by
    show processBatch skipV (buildIndexMain false fetch).1 files =
      processBatch skipV [] files
    rw [hidx]
  rw [hmr] at ho
  simp only [processBatch] at ho
  rcases List.mem_map.mp ho with ⟨f, hf, rfl⟩
  exact processFile_empty_index skipV f

def fileC10 : FileM :=
  ⟨"w.yaml".toList, some ("W".toList), true, [], true, [], false, none⟩

/-- Witness for C10: a one-file batch under a raised pre-fetch; the item is not
DUPLICATE and validation runs. -/
theorem empty_index_disables_duplicate_check_witness :
    (processFile false [] fileC10).status ≠ "DUPLICATE".toList ∧
    (processFile false [] fileC10).ranValidate = true := by
  have h := (empty_index_disables_duplicate_check false FetchOutcome.exn [fileC10]
    (Or.inl rfl)).2
  have hm : processFile false [] fileC10 ∈
      (mainRun false false FetchOutcome.exn [fileC10]).1 := by
    show processFile false [] fileC10 ∈ [processFile false [] fileC10]
    exact List.mem_singleton_self _
  exact ⟨(h _ hm).1, (h _ hm).2⟩
